import Mathlib

/-!
Shallow embedding of the `lru-list` storage-agnostic LRU list
(`src/index.js`).  Entries of the doubly-linked chain live in an arena
(`List LRUEntry`) and are addressed by their index, mirroring JavaScript
object identity; `older`/`newer` links, `head`/`tail` anchors and the
key map hold such indices.  The external backing store is modelled as an
in-memory association list honouring the `set`/`get`/`del` contract; the
outcome of each store call (success, or the error handed to the `done`
callback) is an explicit parameter of the operation, so every code path
of the source — including the failure paths — is represented.
-/

/-- One node of the doubly-linked chain (`LRUEntry` in the source): a key
plus two optional links, `older` toward the head and `newer` toward the
tail, given as indices into the entry arena. -/
structure LRUEntry where
  key : Nat
  older : Option Nat
  newer : Option Nat
  deriving DecidableEq, Repr

/-- State of an `LRUList` plus its backing store.  `entries` is the arena
of every entry object ever created (JavaScript heap); `head`, `tail` and
the values of `keymap` are arena indices.  `store` is the modelled
backing key-value store. -/
structure LRUList where
  size : Nat
  limit : Nat
  head : Option Nat
  tail : Option Nat
  entries : List LRUEntry
  keymap : List (Nat × Nat)
  store : List (Nat × Nat)
  deriving DecidableEq, Repr

/-- Lookup in an association list (JavaScript `map[key]`). -/
def kmGet (m : List (Nat × Nat)) (k : Nat) : Option Nat :=
  match m with
  | [] => none
  | (k', v) :: rest => if k' = k then some v else kmGet rest k

/-- In-place overwrite-or-append (JavaScript `map[key] = v`). -/
def kmSet (m : List (Nat × Nat)) (k v : Nat) : List (Nat × Nat) :=
  match m with
  | [] => [(k, v)]
  | (k', v') :: rest => if k' = k then (k, v) :: rest else (k', v') :: kmSet rest k v

/-- Deletion of a key (JavaScript `delete map[key]`). -/
def kmDel (m : List (Nat × Nat)) (k : Nat) : List (Nat × Nat) :=
  match m with
  | [] => []
  | (k', v) :: rest => if k' = k then kmDel rest k else (k', v) :: kmDel rest k

/-- Placeholder entry returned for an out-of-range arena read; no
reachable code path depends on its fields. -/
def dummyEntry : LRUEntry := ⟨0, none, none⟩

/-- Arena read (dereferencing an entry index). -/
def aget (es : List LRUEntry) (i : Nat) : LRUEntry := (es[i]?).getD dummyEntry

/-- Arena write (mutating the entry object at index `i`). -/
def aset (es : List LRUEntry) (i : Nat) (e : LRUEntry) : List LRUEntry := es.set i e

/-- Mutation `entry.newer = v` on the entry at index `i`. -/
def setNewer (es : List LRUEntry) (i : Nat) (v : Option Nat) : List LRUEntry :=
  aset es i { aget es i with newer := v }

/-- Mutation `entry.older = v` on the entry at index `i`. -/
def setOlder (es : List LRUEntry) (i : Nat) (v : Option Nat) : List LRUEntry :=
  aset es i { aget es i with older := v }

/-- Constructor `new LRUList(config)`: `limit` defaults to 100 on the
falsy value 0 (`config.limit || 100`), everything else starts empty. -/
def mkLRUList (limit : Nat) : LRUList :=
  { size := 0, limit := if limit = 0 then 100 else limit
    head := none, tail := none, entries := [], keymap := [], store := [] }

namespace LRUList

/-- `LRUList.prototype.shift`: remove the entry at the head.  If the
chain is empty, complete with no entry.  Otherwise detach the head
(advance `head` to `head.newer`, clear the old head's links) *before*
the store `del` call; on store failure report the error leaving the key
map untouched, on success delete the key from the key map and complete
with the shifted entry.  `delErr` is the error (if any) the store's
`del` hands to its callback. -/
def shift (st : LRUList) (delErr : Option Nat) : LRUList × Except Nat (Option Nat) :=
  match st.head with
  | none => (st, Except.ok none)
  | some h =>
    let e := aget st.entries h
    let st1 :=
      match e.newer with
      | some n => { st with head := some n, entries := setOlder st.entries n none }
      | none => { st with head := none }
    let st2 := { st1 with entries := setOlder (setNewer st1.entries h none) h none }
    match delErr with
    | some err => (st2, Except.error err)
    | none =>
      ({ st2 with keymap := kmDel st2.keymap e.key, store := kmDel st2.store e.key },
       Except.ok (some h))

/-- `LRUList.prototype.put`: ask the store to persist `(key, val)`; on
error report it with no structural change.  On success append a fresh
entry at the tail, point the key map at it, and either evict the current
head via `shift` (when `size` equals `limit`, reporting that same
completion) or increment `size`.  `setErr` is the error (if any) of the
store's `set`; `delErr` is threaded to the eviction's `del`. -/
def put (st : LRUList) (key val : Nat) (setErr delErr : Option Nat) :
    LRUList × Except Nat (Option Nat) :=
  match setErr with
  | some err => (st, Except.error err)
  | none =>
    let st0 := { st with store := kmSet st.store key val }
    let n := st0.entries.length
    let st1 := { st0 with
      entries := st0.entries ++ [LRUEntry.mk key none none]
      keymap := kmSet st0.keymap key n }
    let st2 :=
      match st.tail with
      | some t => { st1 with entries := setOlder (setNewer st1.entries t (some n)) n (some t) }
      | none => { st1 with head := some n }
    let st3 := { st2 with tail := some n }
    if st3.size = st3.limit then shift st3 delErr
    else ({ st3 with size := st3.size + 1 }, Except.ok none)

/-- `LRUList.prototype.get`: read the value from the store first; on
error report it with no structural change.  On success, if `key` is not
in the key map complete with an undefined value (discarding the read
value); if the indexed entry is the tail complete with the value; else
unlink the entry from its position and relink it after the tail,
completing with the value.  `getErr` is the error (if any) of the
store's `get`. -/
def get (st : LRUList) (key : Nat) (getErr : Option Nat) :
    LRUList × Except Nat (Option Nat) :=
  match getErr with
  | some err => (st, Except.error err)
  | none =>
    let val := kmGet st.store key
    match kmGet st.keymap key with
    | none => (st, Except.ok none)
    | some eid =>
      if st.tail = some eid then (st, Except.ok val)
      else
        let e := aget st.entries eid
        let st1 :=
          match e.newer with
          | some n =>
            let sth := if st.head = some eid then { st with head := some n } else st
            { sth with entries := setOlder sth.entries n e.older }
          | none => st
        let st2 :=
          match e.older with
          | some o => { st1 with entries := setNewer st1.entries o e.newer }
          | none => st1
        let st3 := { st2 with entries := setOlder (setNewer st2.entries eid none) eid st.tail }
        let st4 :=
          match st.tail with
          | some t => { st3 with entries := setNewer st3.entries t (some eid) }
          | none => st3
        ({ st4 with tail := some eid }, Except.ok val)

/-- `LRUList.prototype.remove`: ask the store to delete `key` first; on
error report it with no structural change.  On success, if `key` is not
in the key map complete with no structural change; otherwise delete the
indexed entry's key from the key map, unlink the entry (four cases on
its neighbours, repatching `head`/`tail`), and decrement `size`.
`delErr` is the error (if any) of the store's `del`. -/
def remove (st : LRUList) (key : Nat) (delErr : Option Nat) :
    LRUList × Except Nat Unit :=
  match delErr with
  | some err => (st, Except.error err)
  | none =>
    let st0 := { st with store := kmDel st.store key }
    match kmGet st0.keymap key with
    | none => (st0, Except.ok ())
    | some eid =>
      let e := aget st0.entries eid
      let st1 := { st0 with keymap := kmDel st0.keymap e.key }
      let st2 :=
        match e.newer, e.older with
        | some n, some o =>
          { st1 with entries := setOlder (setNewer st1.entries o (some n)) n (some o) }
        | some n, none => { st1 with entries := setOlder st1.entries n none, head := some n }
        | none, some o => { st1 with entries := setNewer st1.entries o none, tail := some o }
        | none, none => { st1 with head := none, tail := none }
      ({ st2 with size := st2.size - 1 }, Except.ok ())

/-- Fuel-bounded walk of the chain along `newer` links, collecting the
arena indices visited; the fuel makes the walk total even on arbitrary
link graphs. -/
def chainIdsFrom (es : List LRUEntry) : Nat → Option Nat → List Nat
  | 0, _ => []
  | _ + 1, none => []
  | fuel + 1, some i => i :: chainIdsFrom es fuel (aget es i).newer

/-- Arena indices of the chain walked head-to-tail (fuel: one step per
allocated entry, enough for any duplicate-free chain). -/
def chainIds (st : LRUList) : List Nat :=
  chainIdsFrom st.entries st.entries.length st.head

/-- `LRUList.prototype.toArray`: the head-to-tail key list produced by
walking `newer` links from `head`. -/
def toArray (st : LRUList) : List Nat :=
  (chainIds st).map (fun i => (aget st.entries i).key)

/-- Chain entries that are live, i.e. still the entry the key map
points at for their key. -/
def liveIds (st : LRUList) : List Nat :=
  (chainIds st).filter (fun i => decide (kmGet st.keymap (aget st.entries i).key = some i))

/-- Number of live entries in the chain. -/
def liveCount (st : LRUList) : Nat := (liveIds st).length

/-- Keys of the live chain entries, oldest first. -/
def liveKeys (st : LRUList) : List Nat :=
  (liveIds st).map (fun i => (aget st.entries i).key)

/-- Key of the oldest live entry, if any. -/
def oldestLiveKey (st : LRUList) : Option Nat := (liveKeys st).head?

/-- Fold a sequence of `put` calls (key, value, set-error, del-error)
over a state. -/
def applyPuts (st : LRUList) : List (Nat × Nat × Option Nat × Option Nat) → LRUList
  | [] => st
  | (k, v, e1, e2) :: rest => applyPuts (put st k v e1 e2).1 rest

end LRUList

/-- States reachable from a freshly constructed list by the public
operations, with arbitrary keys, values and store outcomes. -/
inductive Reachable : LRUList → Prop
  | init (limit : Nat) : Reachable (mkLRUList limit)
  | putStep (st : LRUList) (k v : Nat) (e1 e2 : Option Nat) :
      Reachable st → Reachable (LRUList.put st k v e1 e2).1
  | getStep (st : LRUList) (k : Nat) (e : Option Nat) :
      Reachable st → Reachable (LRUList.get st k e).1
  | removeStep (st : LRUList) (k : Nat) (e : Option Nat) :
      Reachable st → Reachable (LRUList.remove st k e).1
  | shiftStep (st : LRUList) (e : Option Nat) :
      Reachable st → Reachable (LRUList.shift st e).1

lemma kmGet_kmDel_self (m : List (Nat × Nat)) (k : Nat) : kmGet (kmDel m k) k = none := by
  induction m with
  | nil => rfl
  | cons p rest ih =>
    obtain ⟨k', v⟩ := p
    by_cases h : k' = k
    · simpa [kmDel, h] using ih
    · simpa [kmDel, kmGet, h] using ih

lemma aget_aset (es : List LRUEntry) (i : Nat) (e : LRUEntry) (j : Nat) :
    aget (aset es i e) j = if i = j ∧ i < es.length then e else aget es j := by
  unfold aget aset
  rw [List.getElem?_set]
  by_cases h : i = j
  · subst h
    by_cases hl : i < es.length
    · simp [hl]
    · simp [hl, List.getElem?_eq_none (Nat.le_of_not_lt hl)]
  · simp [h]

lemma aget_oob (es : List LRUEntry) (i : Nat) (h : ¬ i < es.length) : aget es i = dummyEntry := by
  unfold aget
  rw [List.getElem?_eq_none (Nat.le_of_not_lt h)]
  rfl

lemma length_setNewer (es : List LRUEntry) (i : Nat) (v : Option Nat) :
    (setNewer es i v).length = es.length := by
  simp [setNewer, aset]

lemma length_setOlder (es : List LRUEntry) (i : Nat) (v : Option Nat) :
    (setOlder es i v).length = es.length := by
  simp [setOlder, aset]

lemma aget_setNewer (es : List LRUEntry) (i : Nat) (v : Option Nat) (j : Nat) :
    aget (setNewer es i v) j =
      if i = j ∧ i < es.length then { aget es i with newer := v } else aget es j := by
  unfold setNewer
  exact aget_aset ..

lemma aget_setOlder (es : List LRUEntry) (i : Nat) (v : Option Nat) (j : Nat) :
    aget (setOlder es i v) j =
      if i = j ∧ i < es.length then { aget es i with older := v } else aget es j := by
  unfold setOlder
  exact aget_aset ..

lemma key_setNewer (es : List LRUEntry) (i : Nat) (v : Option Nat) (j : Nat) :
    (aget (setNewer es i v) j).key = (aget es j).key := by
  rw [aget_setNewer]
  split
  · next h => rw [h.1]
  · rfl

lemma key_setOlder (es : List LRUEntry) (i : Nat) (v : Option Nat) (j : Nat) :
    (aget (setOlder es i v) j).key = (aget es j).key := by
  rw [aget_setOlder]
  split
  · next h => rw [h.1]
  · rfl

lemma newer_setOlder (es : List LRUEntry) (i : Nat) (v : Option Nat) (j : Nat) :
    (aget (setOlder es i v) j).newer = (aget es j).newer := by
  rw [aget_setOlder]
  split
  · next h => rw [h.1]
  · rfl

lemma older_setNewer (es : List LRUEntry) (i : Nat) (v : Option Nat) (j : Nat) :
    (aget (setNewer es i v) j).older = (aget es j).older := by
  rw [aget_setNewer]
  split
  · next h => rw [h.1]
  · rfl

lemma newer_setNewer_ne (es : List LRUEntry) (i : Nat) (v : Option Nat) (j : Nat) (h : i ≠ j) :
    (aget (setNewer es i v) j).newer = (aget es j).newer := by
  rw [aget_setNewer]
  simp [h]

lemma newer_setNewer_none_self (es : List LRUEntry) (i : Nat) :
    (aget (setNewer es i none) i).newer = none := by
  rw [aget_setNewer]
  split
  · rfl
  · next h =>
    have hl : ¬ i < es.length := fun hlt => h ⟨rfl, hlt⟩
    rw [aget_oob es i hl]
    rfl

lemma older_setOlder_none_self (es : List LRUEntry) (i : Nat) :
    (aget (setOlder es i none) i).older = none := by
  rw [aget_setOlder]
  split
  · rfl
  · next h =>
    have hl : ¬ i < es.length := fun hlt => h ⟨rfl, hlt⟩
    rw [aget_oob es i hl]
    rfl

lemma aget_append_lt (es l : List LRUEntry) (i : Nat) (h : i < es.length) :
    aget (es ++ l) i = aget es i := by
  unfold aget
  rw [List.getElem?_append_left h]

lemma aget_append_length (es : List LRUEntry) (e : LRUEntry) :
    aget (es ++ [e]) es.length = e := by
  unfold aget
  rw [List.getElem?_concat_length]
  rfl

namespace LRUList

lemma chainIdsFrom_congr (es es' : List LRUEntry) (fuel : Nat) (c : Option Nat)
    (h : ∀ i ∈ chainIdsFrom es fuel c, (aget es' i).newer = (aget es i).newer) :
    chainIdsFrom es' fuel c = chainIdsFrom es fuel c := by
  induction fuel generalizing c with
  | zero => rfl
  | succ f ih =>
    cases c with
    | none => rfl
    | some i =>
      have hi : (aget es' i).newer = (aget es i).newer :=
        h i (by simp [chainIdsFrom])
      simp only [chainIdsFrom, hi]
      refine congrArg _ (ih _ (fun j hj => h j ?_))
      simp only [chainIdsFrom, List.mem_cons]
      exact Or.inr hj

lemma chainIdsFrom_not_mem (es : List LRUEntry) (x : Nat)
    (hx : ∀ j, (aget es j).newer ≠ some x) :
    ∀ (fuel : Nat) (c : Option Nat), c ≠ some x → x ∉ chainIdsFrom es fuel c := by
  intro fuel
  induction fuel with
  | zero => intro c _; simp [chainIdsFrom]
  | succ f ih =>
    intro c hc
    cases c with
    | none => simp [chainIdsFrom]
    | some i =>
      simp only [chainIdsFrom, List.mem_cons]
      intro hmem
      rcases hmem with h1 | h2
      · exact hc (congrArg some h1.symm)
      · exact ih _ (hx i) h2

lemma chainIdsFrom_mem_fuel_succ (es : List LRUEntry) (x : Nat) :
    ∀ (f : Nat) (c : Option Nat), x ∈ chainIdsFrom es f c → x ∈ chainIdsFrom es (f + 1) c := by
  intro f
  induction f with
  | zero => intro c h; simp [chainIdsFrom] at h
  | succ f ih =>
    intro c h
    cases c with
    | none => simp [chainIdsFrom] at h
    | some i =>
      simp only [chainIdsFrom, List.mem_cons] at h ⊢
      rcases h with h | h
      · exact Or.inl h
      · exact Or.inr (ih _ h)

end LRUList

namespace LRUList

lemma shift_size (st : LRUList) (d : Option Nat) : (shift st d).1.size = st.size := by
  unfold shift
  cases hh : st.head with
  | none => rfl
  | some h =>
    dsimp only
    cases hn : (aget st.entries h).newer <;> cases d <;> rfl

lemma shift_limit (st : LRUList) (d : Option Nat) : (shift st d).1.limit = st.limit := by
  unfold shift
  cases hh : st.head with
  | none => rfl
  | some h =>
    dsimp only
    cases hn : (aget st.entries h).newer <;> cases d <;> rfl

lemma shift_tail (st : LRUList) (d : Option Nat) : (shift st d).1.tail = st.tail := by
  unfold shift
  cases hh : st.head with
  | none => rfl
  | some h =>
    dsimp only
    cases hn : (aget st.entries h).newer <;> cases d <;> rfl

lemma shift_entries_length (st : LRUList) (d : Option Nat) :
    (shift st d).1.entries.length = st.entries.length := by
  unfold shift
  cases hh : st.head with
  | none => rfl
  | some h =>
    dsimp only
    cases hn : (aget st.entries h).newer <;> cases d <;>
      simp [length_setOlder, length_setNewer]

lemma shift_head (st : LRUList) (hd : Nat) (d : Option Nat) (hh : st.head = some hd) :
    (shift st d).1.head = (aget st.entries hd).newer := by
  unfold shift
  rw [hh]
  dsimp only
  cases hn : (aget st.entries hd).newer <;> cases d <;> rfl

lemma shift_snd_ok (st : LRUList) (hd : Nat) (hh : st.head = some hd) :
    (shift st none).2 = Except.ok (some hd) := by
  unfold shift
  rw [hh]

lemma shift_snd_err (st : LRUList) (hd : Nat) (e : Nat) (hh : st.head = some hd) :
    (shift st (some e)).2 = Except.error e := by
  unfold shift
  rw [hh]

lemma shift_keymap_ok (st : LRUList) (hd : Nat) (hh : st.head = some hd) :
    (shift st none).1.keymap = kmDel st.keymap (aget st.entries hd).key := by
  unfold shift
  rw [hh]
  dsimp only
  cases hn : (aget st.entries hd).newer <;> rfl

lemma shift_store_ok (st : LRUList) (hd : Nat) (hh : st.head = some hd) :
    (shift st none).1.store = kmDel st.store (aget st.entries hd).key := by
  unfold shift
  rw [hh]
  dsimp only
  cases hn : (aget st.entries hd).newer <;> rfl

lemma shift_keymap_err (st : LRUList) (hd : Nat) (e : Nat) (hh : st.head = some hd) :
    (shift st (some e)).1.keymap = st.keymap := by
  unfold shift
  rw [hh]
  dsimp only
  cases hn : (aget st.entries hd).newer <;> rfl

lemma shift_store_err (st : LRUList) (hd : Nat) (e : Nat) (hh : st.head = some hd) :
    (shift st (some e)).1.store = st.store := by
  unfold shift
  rw [hh]
  dsimp only
  cases hn : (aget st.entries hd).newer <;> rfl

lemma shift_entries_newer (st : LRUList) (hd : Nat) (d : Option Nat) (hh : st.head = some hd)
    (j : Nat) :
    (aget (shift st d).1.entries j).newer =
      if j = hd then none else (aget st.entries j).newer := by
  unfold shift
  rw [hh]
  dsimp only
  have base : ∀ es : List LRUEntry,
      (aget (setOlder (setNewer es hd none) hd none) j).newer =
        if j = hd then none else (aget es j).newer := by
    intro es
    rw [newer_setOlder]
    by_cases hj : j = hd
    · subst hj
      simp [newer_setNewer_none_self]
    · rw [newer_setNewer_ne _ _ _ _ (fun h => hj h.symm)]
      simp [hj]
  cases hn : (aget st.entries hd).newer with
  | none => cases d <;> simpa using base st.entries
  | some n =>
    cases d <;>
      simpa [newer_setOlder] using base (setOlder st.entries n none)

lemma shift_entries_key (st : LRUList) (hd : Nat) (d : Option Nat) (hh : st.head = some hd)
    (j : Nat) :
    (aget (shift st d).1.entries j).key = (aget st.entries j).key := by
  unfold shift
  rw [hh]
  dsimp only
  cases hn : (aget st.entries hd).newer <;> cases d <;>
    simp [key_setOlder, key_setNewer]

lemma shift_entries_older_hd (st : LRUList) (hd : Nat) (d : Option Nat) (hh : st.head = some hd) :
    (aget (shift st d).1.entries hd).older = none := by
  unfold shift
  rw [hh]
  dsimp only
  cases hn : (aget st.entries hd).newer <;> cases d <;>
    simp [older_setOlder_none_self]

end LRUList

namespace LRUList

lemma get_size (st : LRUList) (k : Nat) (e : Option Nat) : (get st k e).1.size = st.size := by
  unfold get
  cases e with
  | some err => rfl
  | none =>
    dsimp only
    cases hk : kmGet st.keymap k with
    | none => rfl
    | some eid =>
      dsimp only
      split
      · rfl
      · dsimp only
        cases hn : (aget st.entries eid).newer <;>
        cases ho : (aget st.entries eid).older <;>
        cases ht : st.tail <;>
        first
          | rfl
          | (dsimp only; split <;> rfl)

lemma get_limit (st : LRUList) (k : Nat) (e : Option Nat) : (get st k e).1.limit = st.limit := by
  unfold get
  cases e with
  | some err => rfl
  | none =>
    dsimp only
    cases hk : kmGet st.keymap k with
    | none => rfl
    | some eid =>
      dsimp only
      split
      · rfl
      · dsimp only
        cases hn : (aget st.entries eid).newer <;>
        cases ho : (aget st.entries eid).older <;>
        cases ht : st.tail <;>
        first
          | rfl
          | (dsimp only; split <;> rfl)

lemma get_not_indexed (st : LRUList) (k : Nat) (h : kmGet st.keymap k = none) :
    get st k none = (st, Except.ok none) := by
  unfold get
  dsimp only
  rw [h]

lemma get_err (st : LRUList) (k : Nat) (e : Nat) :
    get st k (some e) = (st, Except.error e) := rfl

lemma remove_err (st : LRUList) (k : Nat) (e : Nat) :
    remove st k (some e) = (st, Except.error e) := rfl

lemma remove_not_indexed (st : LRUList) (k : Nat) (h : kmGet st.keymap k = none) :
    remove st k none = ({ st with store := kmDel st.store k }, Except.ok ()) := by
  unfold remove
  dsimp only
  rw [h]

lemma remove_size_le (st : LRUList) (k : Nat) (d : Option Nat) :
    (remove st k d).1.size ≤ st.size := by
  unfold remove
  cases d with
  | some err => exact Nat.le_refl _
  | none =>
    dsimp only
    cases hk : kmGet st.keymap k with
    | none => exact Nat.le_refl _
    | some eid =>
      dsimp only
      cases hn : (aget st.entries eid).newer <;>
      cases ho : (aget st.entries eid).older <;>
        (dsimp only; omega)

lemma remove_limit (st : LRUList) (k : Nat) (d : Option Nat) :
    (remove st k d).1.limit = st.limit := by
  unfold remove
  cases d with
  | some err => rfl
  | none =>
    dsimp only
    cases hk : kmGet st.keymap k with
    | none => rfl
    | some eid =>
      dsimp only
      cases hn : (aget st.entries eid).newer <;>
      cases ho : (aget st.entries eid).older <;> rfl

lemma remove_keymap (st : LRUList) (k : Nat) :
    (remove st k none).1.keymap =
      match kmGet st.keymap k with
      | none => st.keymap
      | some eid => kmDel st.keymap (aget st.entries eid).key := by
  unfold remove
  dsimp only
  cases hk : kmGet st.keymap k with
  | none => rfl
  | some eid =>
    dsimp only
    cases hn : (aget st.entries eid).newer <;>
    cases ho : (aget st.entries eid).older <;> rfl

lemma put_err (st : LRUList) (k v e : Nat) (d : Option Nat) :
    put st k v (some e) d = (st, Except.error e) := rfl

lemma put_limit (st : LRUList) (k v : Nat) (e1 e2 : Option Nat) :
    (put st k v e1 e2).1.limit = st.limit := by
  unfold put
  cases e1 with
  | some err => rfl
  | none =>
    dsimp only
    cases ht : st.tail <;>
      (dsimp only
       split
       · rw [shift_limit]
       · rfl)

lemma put_size_le_limit (st : LRUList) (k v : Nat) (e1 e2 : Option Nat)
    (h : st.size ≤ st.limit) : (put st k v e1 e2).1.size ≤ st.limit := by
  unfold put
  cases e1 with
  | some err => exact h
  | none =>
    dsimp only
    cases ht : st.tail <;>
      (dsimp only
       split
       · rw [shift_size]; exact h
       · next hcond =>
           have h2 : ¬ st.size = st.limit := by simpa using hcond
           show st.size + 1 ≤ st.limit
           omega)

end LRUList

lemma LRUList.applyPuts_size_le (ops : List (Nat × Nat × Option Nat × Option Nat)) :
    ∀ st : LRUList, st.size ≤ st.limit →
      (LRUList.applyPuts st ops).size ≤ (LRUList.applyPuts st ops).limit := by
  induction ops with
  | nil => intro st h; exact h
  | cons op rest ih =>
    intro st h
    obtain ⟨k, v, e1, e2⟩ := op
    show (LRUList.applyPuts (LRUList.put st k v e1 e2).1 rest).size ≤ _
    refine ih _ ?_
    rw [LRUList.put_limit]
    exact LRUList.put_size_le_limit st k v e1 e2 h

namespace LRUList

lemma unbounded_no_newer (st : LRUList) (hd : Nat)
    (hno : ∀ i < st.entries.length, (aget st.entries i).newer ≠ some hd) :
    ∀ i, (aget st.entries i).newer ≠ some hd := by
  intro i
  by_cases hi : i < st.entries.length
  · exact hno i hi
  · rw [aget_oob _ _ hi]
    intro h
    cases h

lemma put_at_capacity_evicts_head (st : LRUList) (k v hd t : Nat)
    (hsz : st.size = st.limit) (hh : st.head = some hd) (htl : st.tail = some t)
    (hlen : hd < st.entries.length) :
    (put st k v none none).2 = Except.ok (some hd) ∧
    (put st k v none none).1.size = st.size ∧
    (put st k v none none).1.keymap =
      kmDel (kmSet st.keymap k st.entries.length) (aget st.entries hd).key := by
  have hput : put st k v none none =
      shift (⟨st.size, st.limit, st.head, some st.entries.length,
        setOlder (setNewer (st.entries ++ [LRUEntry.mk k none none]) t (some st.entries.length))
          st.entries.length (some t),
        kmSet st.keymap k st.entries.length, kmSet st.store k v⟩ : LRUList) none := by
    unfold put
    dsimp only
    rw [htl]
    dsimp only
    rw [if_pos hsz]
  have hh3 : (⟨st.size, st.limit, st.head, some st.entries.length,
        setOlder (setNewer (st.entries ++ [LRUEntry.mk k none none]) t (some st.entries.length))
          st.entries.length (some t),
        kmSet st.keymap k st.entries.length, kmSet st.store k v⟩ : LRUList).head = some hd := hh
  have hkey : (aget (setOlder (setNewer (st.entries ++ [LRUEntry.mk k none none]) t
        (some st.entries.length)) st.entries.length (some t)) hd).key =
      (aget st.entries hd).key := by
    rw [key_setOlder, key_setNewer, aget_append_lt _ _ _ hlen]
  refine ⟨?_, ?_, ?_⟩
  · rw [hput, shift_snd_ok _ hd hh3]
  · rw [hput, shift_size]
  · rw [hput, shift_keymap_ok _ hd hh3, hkey]

/-- C1 (amended): over every sequence of `put` calls from a fresh list,
`size` never exceeds `limit`; and at capacity (`size = limit`, non-empty
chain), a successful `put` evicts exactly the oldest *chain* entry — the
head, which may be an orphan — removing that entry's key from the index,
and leaves `size` unchanged (hence at `limit`). -/
theorem capacity_bound_and_eviction :
    (∀ (L : Nat) (ops : List (Nat × Nat × Option Nat × Option Nat)),
        (applyPuts (mkLRUList L) ops).size ≤ (applyPuts (mkLRUList L) ops).limit) ∧
    (∀ (st : LRUList) (k v hd t : Nat), st.size = st.limit → st.head = some hd →
        st.tail = some t → hd < st.entries.length →
        (put st k v none none).2 = Except.ok (some hd) ∧
        (put st k v none none).1.size = st.size ∧
        (put st k v none none).1.keymap =
          kmDel (kmSet st.keymap k st.entries.length) (aget st.entries hd).key) := by
  constructor
  · intro L ops
    exact applyPuts_size_le ops (mkLRUList L) (Nat.zero_le _)
  · intro st k v hd t hsz hh htl hlen
    exact put_at_capacity_evicts_head st k v hd t hsz hh htl hlen

/-- C1 witness: the amended statement instantiated at a concrete
at-capacity list. -/
theorem capacity_bound_and_eviction_witness :
    (applyPuts (mkLRUList 2) [(4, 0, none, none), (5, 0, none, none), (6, 0, none, none)]).size ≤
      (applyPuts (mkLRUList 2) [(4, 0, none, none), (5, 0, none, none), (6, 0, none, none)]).limit ∧
    (put (applyPuts (mkLRUList 2) [(4, 0, none, none), (5, 0, none, none)]) 6 0 none none).2 =
      Except.ok (some 0) := by
  refine ⟨capacity_bound_and_eviction.1 2 _, ?_⟩
  have h := capacity_bound_and_eviction.2
    (applyPuts (mkLRUList 2) [(4, 0, none, none), (5, 0, none, none)]) 6 0 0 1
    rfl rfl rfl (by decide)
  exact h.1

/-- C1 counterexample: with limit 3 after `put 0`, `put 1`, `put 0`, the
oldest *live* key is 1, yet the next successful `put` shifts out chain
entry 0 (an orphan with key 0) and deletes key 0 — not the oldest live
key 1 — from the index. -/
theorem eviction_not_oldest_live_cex :
    oldestLiveKey (applyPuts (mkLRUList 3)
        [(0, 0, none, none), (1, 1, none, none), (0, 2, none, none)]) = some 1 ∧
    (put (applyPuts (mkLRUList 3)
        [(0, 0, none, none), (1, 1, none, none), (0, 2, none, none)]) 2 9 none none).2 =
      Except.ok (some 0) ∧
    (aget (applyPuts (mkLRUList 3)
        [(0, 0, none, none), (1, 1, none, none), (0, 2, none, none)]).entries 0).key = 0 ∧
    kmGet (put (applyPuts (mkLRUList 3)
        [(0, 0, none, none), (1, 1, none, none), (0, 2, none, none)]) 2 9 none none).1.keymap 0 =
      none ∧
    kmGet (put (applyPuts (mkLRUList 3)
        [(0, 0, none, none), (1, 1, none, none), (0, 2, none, none)]) 2 9 none none).1.keymap 1 =
      some 1 ∧
    (0 : Nat) ≠ 1 := by
  refine ⟨rfl, rfl, rfl, rfl, rfl, by decide⟩

end LRUList

namespace LRUList

/-- C2: from a fresh list with limit ≥ 3 and distinct keys, after
successful `put k1`, `put k2`, `put k3` the ordered key list is
`[k1, k2, k3]`; after a subsequent successful `get k1` it is
`[k2, k3, k1]` — `get` promotes the entry to the tail. -/
theorem lru_ordering (L k1 k2 k3 v1 v2 v3 : Nat) (hL : 3 ≤ L)
    (h12 : k1 ≠ k2) (h13 : k1 ≠ k3) (h23 : k2 ≠ k3) :
    toArray (put (put (put (mkLRUList L) k1 v1 none none).1 k2 v2 none none).1
        k3 v3 none none).1 = [k1, k2, k3] ∧
    toArray (get (put (put (put (mkLRUList L) k1 v1 none none).1 k2 v2 none none).1
        k3 v3 none none).1 k1 none).1 = [k2, k3, k1] := by
  have hL0 : ¬ L = 0 := by omega
  have hs0 : ¬ (0 : Nat) = L := by omega
  have hs1 : ¬ (1 : Nat) = L := by omega
  have hs2 : ¬ (2 : Nat) = L := by omega
  have e1 : put (mkLRUList L) k1 v1 none none =
      (⟨1, L, some 0, some 0, [⟨k1, none, none⟩], [(k1, 0)], [(k1, v1)]⟩, Except.ok none) := by
    simp [put, mkLRUList, kmSet, hL0, hs0]
  have e2 : put (⟨1, L, some 0, some 0, [⟨k1, none, none⟩], [(k1, 0)],
        [(k1, v1)]⟩ : LRUList) k2 v2 none none =
      (⟨2, L, some 0, some 1, [⟨k1, none, some 1⟩, ⟨k2, some 0, none⟩],
        [(k1, 0), (k2, 1)], [(k1, v1), (k2, v2)]⟩, Except.ok none) := by
    simp [put, kmSet, setNewer, setOlder, aset, aget, h12, hs1]
  have e3 : put (⟨2, L, some 0, some 1, [⟨k1, none, some 1⟩, ⟨k2, some 0, none⟩],
        [(k1, 0), (k2, 1)], [(k1, v1), (k2, v2)]⟩ : LRUList) k3 v3 none none =
      (⟨3, L, some 0, some 2,
        [⟨k1, none, some 1⟩, ⟨k2, some 0, some 2⟩, ⟨k3, some 1, none⟩],
        [(k1, 0), (k2, 1), (k3, 2)], [(k1, v1), (k2, v2), (k3, v3)]⟩, Except.ok none) := by
    simp [put, kmSet, setNewer, setOlder, aset, aget, h13, h23, hs2]
  have e4 : get (⟨3, L, some 0, some 2,
        [⟨k1, none, some 1⟩, ⟨k2, some 0, some 2⟩, ⟨k3, some 1, none⟩],
        [(k1, 0), (k2, 1), (k3, 2)], [(k1, v1), (k2, v2), (k3, v3)]⟩ : LRUList) k1 none =
      (⟨3, L, some 1, some 0,
        [⟨k1, some 2, none⟩, ⟨k2, none, some 2⟩, ⟨k3, some 1, some 0⟩],
        [(k1, 0), (k2, 1), (k3, 2)], [(k1, v1), (k2, v2), (k3, v3)]⟩, Except.ok (some v1)) := by
    simp [get, kmGet, kmSet, setNewer, setOlder, aset, aget, h12, h13, h23]
  rw [e1, e2, e3, e4]
  constructor
  · simp [toArray, chainIds, chainIdsFrom, aget]
  · simp [toArray, chainIds, chainIdsFrom, aget]

/-- C2 witness: the ordering statement at limit 3 and keys 10, 20, 30. -/
theorem lru_ordering_witness :
    toArray (put (put (put (mkLRUList 3) 10 1 none none).1 20 2 none none).1
        30 3 none none).1 = [10, 20, 30] ∧
    toArray (get (put (put (put (mkLRUList 3) 10 1 none none).1 20 2 none none).1
        30 3 none none).1 10 none).1 = [20, 30, 10] :=
  lru_ordering 3 10 20 30 1 2 3 (by decide) (by decide) (by decide) (by decide)

/-- C3: a `put` whose store `set` fails leaves the whole state — in
particular `head`, `tail`, the key map and `size` — exactly as before,
surfaces that same error, and a retried `put` of the same key and value
with a succeeding store behaves exactly as a fresh insert from the
pre-call state. -/
theorem put_failure_atomic (st : LRUList) (k v e : Nat) (d d' : Option Nat) :
    put st k v (some e) d = (st, Except.error e) ∧
    (put st k v (some e) d).1.head = st.head ∧
    (put st k v (some e) d).1.tail = st.tail ∧
    (put st k v (some e) d).1.keymap = st.keymap ∧
    (put st k v (some e) d).1.size = st.size ∧
    put (put st k v (some e) d).1 k v none d' = put st k v none d' :=
  ⟨rfl, rfl, rfl, rfl, rfl, rfl⟩

/-- C5: after two successful `put`s of the same key (limit ≥ 2, so no
eviction), the index points at the entry created by the second `put`
(arena id 1), the chain holds the key twice (the first entry is an
orphan), and a subsequent successful `get` of the key leaves the state
entirely unchanged — it promotes only the indexed entry, which is
already the tail — returning the second value. -/
theorem duplicate_key_orphaning (L k v1 v2 : Nat) (hL : 2 ≤ L) :
    kmGet (put (put (mkLRUList L) k v1 none none).1 k v2 none none).1.keymap k = some 1 ∧
    toArray (put (put (mkLRUList L) k v1 none none).1 k v2 none none).1 = [k, k] ∧
    get (put (put (mkLRUList L) k v1 none none).1 k v2 none none).1 k none =
      ((put (put (mkLRUList L) k v1 none none).1 k v2 none none).1, Except.ok (some v2)) := by
  have hL0 : ¬ L = 0 := by omega
  have hs0 : ¬ (0 : Nat) = L := by omega
  have hs1 : ¬ (1 : Nat) = L := by omega
  have e1 : put (mkLRUList L) k v1 none none =
      (⟨1, L, some 0, some 0, [⟨k, none, none⟩], [(k, 0)], [(k, v1)]⟩, Except.ok none) := by
    simp [put, mkLRUList, kmSet, hL0, hs0]
  have e2 : put (⟨1, L, some 0, some 0, [⟨k, none, none⟩], [(k, 0)],
        [(k, v1)]⟩ : LRUList) k v2 none none =
      (⟨2, L, some 0, some 1, [⟨k, none, some 1⟩, ⟨k, some 0, none⟩],
        [(k, 1)], [(k, v2)]⟩, Except.ok none) := by
    simp [put, kmSet, setNewer, setOlder, aset, aget, hs1]
  rw [e1, e2]
  refine ⟨by simp [kmGet], by simp [toArray, chainIds, chainIdsFrom, aget], ?_⟩
  simp [get, kmGet]

/-- C5 witness: the duplicate-key statement at limit 5, key 7. -/
theorem duplicate_key_orphaning_witness :
    kmGet (put (put (mkLRUList 5) 7 1 none none).1 7 2 none none).1.keymap 7 = some 1 ∧
    toArray (put (put (mkLRUList 5) 7 1 none none).1 7 2 none none).1 = [7, 7] :=
  ⟨(duplicate_key_orphaning 5 7 1 2 (by decide)).1,
   (duplicate_key_orphaning 5 7 1 2 (by decide)).2.1⟩

end LRUList

/-- C4 counterexample: the state after two successful `put`s of key 5 on
a fresh limit-3 list is reachable, has `size` 2, but only 1 live entry
(the chain holds an orphan that `size` still counts). -/
theorem size_ne_live_count_cex :
    Reachable (LRUList.put (LRUList.put (mkLRUList 3) 5 0 none none).1 5 0 none none).1 ∧
    (LRUList.put (LRUList.put (mkLRUList 3) 5 0 none none).1 5 0 none none).1.size = 2 ∧
    LRUList.liveCount
      (LRUList.put (LRUList.put (mkLRUList 3) 5 0 none none).1 5 0 none none).1 = 1 ∧
    (2 : Nat) ≠ 1 :=
  ⟨Reachable.putStep _ 5 0 none none (Reachable.putStep _ 5 0 none none (Reachable.init 3)),
   rfl, rfl, by decide⟩

/-- C4 (amended): in every state reachable by the public operations,
`size` never exceeds `limit`; but `size` need not equal the number of
live entries — a duplicate-key `put` (or a standalone `shift`) makes
`size` exceed the live-entry count, as the counterexample shows. -/
theorem size_le_limit_of_reachable (st : LRUList) (h : Reachable st) : st.size ≤ st.limit := by
  induction h with
  | init limit => exact Nat.zero_le _
  | putStep st k v e1 e2 _ ih =>
    rw [LRUList.put_limit]
    exact LRUList.put_size_le_limit st k v e1 e2 ih
  | getStep st k e _ ih =>
    rw [LRUList.get_size, LRUList.get_limit]
    exact ih
  | removeStep st k e _ ih =>
    rw [LRUList.remove_limit]
    exact Nat.le_trans (LRUList.remove_size_le st k e) ih
  | shiftStep st e _ ih =>
    rw [LRUList.shift_size, LRUList.shift_limit]
    exact ih

/-- C4 witness: the bound applied to a concretely reached state. -/
theorem size_le_limit_of_reachable_witness :
    (LRUList.put (mkLRUList 2) 9 9 none none).1.size ≤
      (LRUList.put (mkLRUList 2) 9 9 none none).1.limit :=
  size_le_limit_of_reachable _ (Reachable.putStep _ 9 9 none none (Reachable.init 2))

namespace LRUList

/-- C6: on a non-empty chain (head entry `hd`, with no entry's `newer`
link pointing at `hd`), `shift` detaches the head before the store
`del`: when `del` fails the error is surfaced, `head` has advanced to
the old head's `newer`, the old head's links are cleared and it is no
longer reachable by chain traversal, while the key map — including the
detached entry's key — is untouched. -/
theorem shift_detach_before_del (st : LRUList) (hd e : Nat)
    (hh : st.head = some hd)
    (hno : ∀ j < st.entries.length, (aget st.entries j).newer ≠ some hd) :
    (shift st (some e)).2 = Except.error e ∧
    (shift st (some e)).1.keymap = st.keymap ∧
    (shift st (some e)).1.head = (aget st.entries hd).newer ∧
    (aget (shift st (some e)).1.entries hd).newer = none ∧
    (aget (shift st (some e)).1.entries hd).older = none ∧
    hd ∉ chainIds (shift st (some e)).1 := by
  have hno' : ∀ j, (aget st.entries j).newer ≠ some hd := unbounded_no_newer st hd hno
  refine ⟨shift_snd_err st hd e hh, shift_keymap_err st hd e hh, shift_head st hd _ hh,
    ?_, shift_entries_older_hd st hd _ hh, ?_⟩
  · rw [shift_entries_newer st hd (some e) hh hd]
    simp
  · have hx : ∀ j, (aget (shift st (some e)).1.entries j).newer ≠ some hd := by
      intro j
      rw [shift_entries_newer st hd (some e) hh j]
      by_cases hj : j = hd
      · simp [hj]
      · simp only [hj, if_false]
        exact hno' j
    have hc : (shift st (some e)).1.head ≠ some hd := by
      rw [shift_head st hd _ hh]
      exact hno' hd
    unfold chainIds
    exact chainIdsFrom_not_mem _ hd hx _ _ hc

/-- C6 witness: the detachment statement at a concrete two-entry list
whose store `del` fails with error 42. -/
theorem shift_detach_before_del_witness :
    (shift (put (put (mkLRUList 5) 7 1 none none).1 8 2 none none).1 (some 42)).2 =
      Except.error 42 ∧
    (shift (put (put (mkLRUList 5) 7 1 none none).1 8 2 none none).1 (some 42)).1.keymap =
      (put (put (mkLRUList 5) 7 1 none none).1 8 2 none none).1.keymap ∧
    0 ∉ chainIds (shift (put (put (mkLRUList 5) 7 1 none none).1 8 2 none none).1 (some 42)).1 := by
  have h := shift_detach_before_del (put (put (mkLRUList 5) 7 1 none none).1 8 2 none none).1
    0 42 rfl (by decide)
  exact ⟨h.1, h.2.1, h.2.2.2.2.2⟩

end LRUList

namespace LRUList

/-- C7: `remove` is idempotent: on a key absent from the index (store
`del` succeeding) it completes successfully leaving `head`, `tail`, key
map, entries and `size` unchanged; and — assuming the key map is
coherent at `k`, i.e. the indexed entry carries key `k` — two successive
successful `remove k` calls leave `size` after the second equal to
`size` after the first. -/
theorem remove_idempotent (st : LRUList) (k : Nat)
    (hcoh : ∀ i, kmGet st.keymap k = some i → (aget st.entries i).key = k) :
    (kmGet st.keymap k = none →
      (remove st k none).1.head = st.head ∧
      (remove st k none).1.tail = st.tail ∧
      (remove st k none).1.keymap = st.keymap ∧
      (remove st k none).1.entries = st.entries ∧
      (remove st k none).1.size = st.size ∧
      (remove st k none).2 = Except.ok ()) ∧
    (remove (remove st k none).1 k none).1.size = (remove st k none).1.size := by
  constructor
  · intro h
    rw [remove_not_indexed st k h]
    exact ⟨rfl, rfl, rfl, rfl, rfl, rfl⟩
  · have h2 : kmGet (remove st k none).1.keymap k = none := by
      rw [remove_keymap st k]
      cases hk : kmGet st.keymap k with
      | none => exact hk
      | some eid =>
        dsimp only
        rw [hcoh eid hk]
        exact kmGet_kmDel_self _ _
    rw [remove_not_indexed _ k h2]

/-- C7 witness: both halves at concrete states — removal of an absent
key is a structural no-op, and a second removal of a removed key keeps
`size`. -/
theorem remove_idempotent_witness :
    (remove (put (mkLRUList 5) 7 1 none none).1 9 none).1.size =
      (put (mkLRUList 5) 7 1 none none).1.size ∧
    (remove (remove (put (mkLRUList 5) 7 1 none none).1 7 none).1 7 none).1.size =
      (remove (put (mkLRUList 5) 7 1 none none).1 7 none).1.size := by
  have h9 : ∀ i, kmGet (put (mkLRUList 5) 7 1 none none).1.keymap 9 = some i →
      (aget (put (mkLRUList 5) 7 1 none none).1.entries i).key = 9 := by
    intro i h
    simp [put, mkLRUList, kmSet, kmGet] at h
  have h7 : ∀ i, kmGet (put (mkLRUList 5) 7 1 none none).1.keymap 7 = some i →
      (aget (put (mkLRUList 5) 7 1 none none).1.entries i).key = 7 := by
    intro i h
    have hi : (0 : Nat) = i := by
      have h' : (some 0 : Option Nat) = some i := h
      simpa using h'
    subst hi
    rfl
  constructor
  · exact ((remove_idempotent (put (mkLRUList 5) 7 1 none none).1 9 h9).1 rfl).2.2.2.2.1
  · exact (remove_idempotent (put (mkLRUList 5) 7 1 none none).1 7 h7).2

/-- C8: if the store read succeeds but the key is not in the index,
`get` completes successfully with an undefined value — whatever value
the store returned is discarded — and changes nothing; if the store
read fails, that error is surfaced and nothing changes. -/
theorem get_miss_discards_value (st : LRUList) (k e : Nat) :
    (kmGet st.keymap k = none → get st k none = (st, Except.ok none)) ∧
    get st k (some e) = (st, Except.error e) :=
  ⟨get_not_indexed st k, rfl⟩

/-- C8 witness: a state whose store holds 42 under key 9 while the index
does not know key 9; `get` succeeds with no value, and a failing read
surfaces error 3. -/
theorem get_miss_discards_value_witness :
    kmGet (⟨0, 5, none, none, [], [], [(9, 42)]⟩ : LRUList).store 9 = some 42 ∧
    get (⟨0, 5, none, none, [], [], [(9, 42)]⟩ : LRUList) 9 none =
      ((⟨0, 5, none, none, [], [], [(9, 42)]⟩ : LRUList), Except.ok none) ∧
    get (⟨0, 5, none, none, [], [], [(9, 42)]⟩ : LRUList) 9 (some 3) =
      ((⟨0, 5, none, none, [], [], [(9, 42)]⟩ : LRUList), Except.error 3) :=
  ⟨rfl, (get_miss_discards_value (⟨0, 5, none, none, [], [], [(9, 42)]⟩ : LRUList) 9 3).1 rfl,
   (get_miss_discards_value (⟨0, 5, none, none, [], [], [(9, 42)]⟩ : LRUList) 9 3).2⟩

/-- C10: `shift` never changes `size`; on a non-empty chain a successful
`shift` additionally reports the shifted head entry, advances `head`
past it and deletes its key from the index — without decrementing
`size`. -/
theorem shift_preserves_size (st : LRUList) (hd : Nat) (hh : st.head = some hd) :
    (∀ d, (shift st d).1.size = st.size) ∧
    (shift st none).2 = Except.ok (some hd) ∧
    (shift st none).1.head = (aget st.entries hd).newer ∧
    kmGet (shift st none).1.keymap (aget st.entries hd).key = none := by
  refine ⟨fun d => shift_size st d, shift_snd_ok st hd hh, shift_head st hd none hh, ?_⟩
  rw [shift_keymap_ok st hd hh]
  exact kmGet_kmDel_self _ _

/-- C10 witness: a successful `shift` on a concrete one-live-entry list
keeps `size` at 2. -/
theorem shift_preserves_size_witness :
    (shift (put (put (mkLRUList 5) 7 1 none none).1 7 2 none none).1 none).1.size =
      (put (put (mkLRUList 5) 7 1 none none).1 7 2 none none).1.size ∧
    (shift (put (put (mkLRUList 5) 7 1 none none).1 7 2 none none).1 none).2 =
      Except.ok (some 0) := by
  have h := shift_preserves_size (put (put (mkLRUList 5) 7 1 none none).1 7 2 none none).1 0 rfl
  exact ⟨h.1 none, h.2.1⟩

end LRUList

namespace LRUList

/-- C9: when the head entry is an orphan whose key `k` is indexed at a
different, still-chained entry `j` (the situation left by a duplicate
`put`), a successful `shift` reports the orphan, deletes `k` from both
the index and the store, and thereby makes the live entry unreadable:
`get k` then completes successfully with no value and `remove k` makes
no structural change, although the ordered key list still contains `k`. -/
theorem orphan_eviction_unindexes_live_key (st : LRUList) (hd j k : Nat)
    (hh : st.head = some hd)
    (hkhd : (aget st.entries hd).key = k)
    (_hidx : kmGet st.keymap k = some j)
    (hne : j ≠ hd)
    (hjchain : j ∈ chainIds st)
    (hjkey : (aget st.entries j).key = k)
    (hno : ∀ i < st.entries.length, (aget st.entries i).newer ≠ some hd) :
    (shift st none).2 = Except.ok (some hd) ∧
    kmGet (shift st none).1.keymap k = none ∧
    kmGet (shift st none).1.store k = none ∧
    get (shift st none).1 k none = ((shift st none).1, Except.ok none) ∧
    remove (shift st none).1 k none =
      ({ (shift st none).1 with store := kmDel (shift st none).1.store k }, Except.ok ()) ∧
    k ∈ toArray (shift st none).1 := by
  have hno' : ∀ i, (aget st.entries i).newer ≠ some hd := unbounded_no_newer st hd hno
  have hkm : kmGet (shift st none).1.keymap k = none := by
    rw [shift_keymap_ok st hd hh, hkhd]
    exact kmGet_kmDel_self _ _
  have hsto : kmGet (shift st none).1.store k = none := by
    rw [shift_store_ok st hd hh, hkhd]
    exact kmGet_kmDel_self _ _
  have hhd_not : hd ∉ chainIdsFrom st.entries st.entries.length (aget st.entries hd).newer :=
    chainIdsFrom_not_mem st.entries hd hno' st.entries.length _ (hno' hd)
  have hnewer_eq : ∀ i ∈ chainIdsFrom st.entries st.entries.length (aget st.entries hd).newer,
      (aget (shift st none).1.entries i).newer = (aget st.entries i).newer := by
    intro i hi
    rw [shift_entries_newer st hd none hh i]
    have hihd : ¬ i = hd := fun hih => hhd_not (hih ▸ hi)
    simp [hihd]
  have hchain : chainIds (shift st none).1 =
      chainIdsFrom st.entries st.entries.length (aget st.entries hd).newer := by
    unfold chainIds
    rw [shift_entries_length st none, shift_head st hd none hh]
    exact chainIdsFrom_congr st.entries _ _ _ hnewer_eq
  have hjmem : j ∈ chainIdsFrom st.entries st.entries.length (aget st.entries hd).newer := by
    unfold chainIds at hjchain
    cases hlen0 : st.entries.length with
    | zero =>
      rw [hlen0] at hjchain
      simp [chainIdsFrom] at hjchain
    | succ m =>
      rw [hlen0, hh] at hjchain
      simp only [chainIdsFrom, List.mem_cons] at hjchain
      rcases hjchain with h | h
      · exact absurd h hne
      · exact chainIdsFrom_mem_fuel_succ st.entries j m _ h
  have hkmem : k ∈ toArray (shift st none).1 := by
    unfold toArray
    rw [hchain]
    refine List.mem_map.mpr ⟨j, hjmem, ?_⟩
    rw [shift_entries_key st hd none hh j, hjkey]
  exact ⟨shift_snd_ok st hd hh, hkm, hsto, get_not_indexed _ k hkm,
    remove_not_indexed _ k hkm, hkmem⟩

/-- C9 witness: the orphan-eviction statement at the concrete state left
by two `put`s of key 7 into a fresh limit-5 list. -/
theorem orphan_eviction_unindexes_live_key_witness :
    (shift (put (put (mkLRUList 5) 7 1 none none).1 7 2 none none).1 none).2 =
      Except.ok (some 0) ∧
    kmGet (shift (put (put (mkLRUList 5) 7 1 none none).1 7 2 none none).1 none).1.keymap 7 =
      none ∧
    kmGet (shift (put (put (mkLRUList 5) 7 1 none none).1 7 2 none none).1 none).1.store 7 =
      none ∧
    get (shift (put (put (mkLRUList 5) 7 1 none none).1 7 2 none none).1 none).1 7 none =
      ((shift (put (put (mkLRUList 5) 7 1 none none).1 7 2 none none).1 none).1,
        Except.ok none) ∧
    7 ∈ toArray (shift (put (put (mkLRUList 5) 7 1 none none).1 7 2 none none).1 none).1 := by
  have h := orphan_eviction_unindexes_live_key
    (put (put (mkLRUList 5) 7 1 none none).1 7 2 none none).1 0 1 7
    rfl rfl rfl (by decide) (by decide) rfl (by decide)
  exact ⟨h.1, h.2.1, h.2.2.1, h.2.2.2.1, h.2.2.2.2.2⟩

end LRUList
